import Mathlib

/-
Verification of the go-vnc RFB client's rectangle decoders and wire helpers.

Shallow embedding conventions:
  * wire bytes are `List Nat` (each element one byte value, 0..255);
  * Go `uint16` arithmetic is arithmetic modulo 65536, written explicitly;
  * a Go function that can fail returns `Except String`;
  * the four persistent Tight zlib readers are modelled by the byte chunk
    each reader has been fed since it was last created or reset, because
    Go's `zlib.NewReader r` and `zlib.Resetter.Reset r nil` both start a
    brand-new zlib stream over `r` (documented semantics of compress/zlib):
    the bytes available to the inflater are exactly that chunk.
-/

set_option maxRecDepth 10000

/-- Modelled from the spec: `Color` is a logical RGB triple (spec data model);
the Color type itself is not under src/. -/
structure Color where
  R : Nat
  G : Nat
  B : Nat
deriving DecidableEq

/-- Go zero value of `Color`. -/
def colorZero : Color := ⟨0, 0, 0⟩

/-- Modelled from the spec: the PixelFormat descriptor fields (bits-per-pixel,
depth, big-endian flag, true-color flag, per-channel max and shift); the
PixelFormat type is not under src/. -/
structure PixelFormat where
  bpp : Nat
  depth : Nat
  bigEndian : Bool
  trueColor : Bool
  redMax : Nat
  greenMax : Nat
  blueMax : Nat
  redShift : Nat
  greenShift : Nat
  blueShift : Nat
deriving DecidableEq

/-- Rectangle header fields, 16-bit unsigned each on the wire.  The Rectangle
type is not under src/; fields follow the spec's data model. -/
structure Rectangle where
  x : Nat
  y : Nat
  width : Nat
  height : Nat
deriving DecidableEq

/-- Modelled from the spec: `area = width * height` (Rectangle.Area is not
under src/). -/
def Rectangle.area (r : Rectangle) : Nat := r.width * r.height

/-- Big-endian value of a byte list (most significant byte first). -/
def bytesToValueBE (bs : List Nat) : Nat :=
  bs.foldl (fun a b => a * 256 + b) 0

/-- Big-endian byte list of width `n` for value `v`: byte `i` (from the most
significant end) is `v / 256 ^ (n - 1 - i) % 256`. -/
def beBytes : Nat → Nat → List Nat
  | 0, _ => []
  | n + 1, v => v / 256 ^ n % 256 :: beBytes n v

/-- Modelled from the spec: decoding a pixel is deterministic given the
PixelFormat and the optional ColorMap — extract the channel fields by
mask and shift when true-color, look the value up in the color map
otherwise (Color.Unmarshal/NewColor are not under src/). -/
def colorUnmarshal (pf : PixelFormat) (cm : List Color) (bs : List Nat) : Color :=
  let v := if pf.bigEndian then bytesToValueBE bs else bytesToValueBE bs.reverse
  if pf.trueColor then
    ⟨(v >>> pf.redShift) &&& pf.redMax,
     (v >>> pf.greenShift) &&& pf.greenMax,
     (v >>> pf.blueShift) &&& pf.blueMax⟩
  else
    cm.getD v colorZero

/-- Modelled from the spec: marshalling a color is the inverse direction of
pixel decoding — each channel, reduced to its channel maximum, is placed at
its channel shift, and the value is written as `bpp / 8` bytes in the
format's byte order (Color.Marshal is not under src/).  For the canonical
formats, whose channel fields do not overlap, the sum below coincides with
bitwise-or composition. -/
def colorMarshal (pf : PixelFormat) (c : Color) : List Nat :=
  let v := c.R % (pf.redMax + 1) * 2 ^ pf.redShift
         + c.G % (pf.greenMax + 1) * 2 ^ pf.greenShift
         + c.B % (pf.blueMax + 1) * 2 ^ pf.blueShift
  let bs := beBytes (pf.bpp / 8) v
  if pf.bigEndian then bs else bs.reverse

/-- Modelled from the spec: the canonical 32-bit true-color pixel format
(`PixelFormat32bit` is referenced by NewClientConn but not under src/;
the spec calls it "typically 32-bit true-color"). -/
def pixelFormat32bit : PixelFormat :=
  ⟨32, 24, true, true, 255, 255, 255, 16, 8, 0⟩

/-- An 8-bits-per-pixel true-color format with non-overlapping 2-bit
channels (shifts 4, 2, 0), used as a concrete pixel format in small
counterexample runs. -/
def pixelFormat8bit : PixelFormat :=
  ⟨8, 8, true, true, 3, 3, 3, 4, 2, 0⟩

/-
--------------------------------------------------------------------------
Tight encoding: zlib stream bookkeeping (TightEncoding.Read and
readCompressedData).
--------------------------------------------------------------------------
-/

/-- The compact length prefix of Tight compressed data (readCompressedData):
up to three bytes, each contributing its low 7 bits little-endian-wise, the
high bit being the continuation flag (ignored on the third byte). -/
def compactLength : List Nat → Except String (Nat × List Nat)
  | [] => .error "failed to read compact length part 0"
  | p0 :: r0 =>
    if p0 &&& 0x80 = 0 then .ok (p0 &&& 0x7F, r0)
    else
      match r0 with
      | [] => .error "failed to read compact length part 1"
      | p1 :: r1 =>
        if p1 &&& 0x80 = 0 then
          .ok ((p0 &&& 0x7F) ||| ((p1 &&& 0x7F) <<< 7), r1)
        else
          match r1 with
          | [] => .error "failed to read compact length part 2"
          | p2 :: r2 =>
            .ok ((p0 &&& 0x7F) ||| ((p1 &&& 0x7F) <<< 7) ||| ((p2 &&& 0x7F) <<< 14), r2)

/-- The reset loop at the top of TightEncoding.Read: for each of the four
zlib streams, if the corresponding low bit of the compression-control byte
is set and the reader exists, close it and set the slot to `none`. -/
def tightResetStreams (subencoding : Nat) (zl : List (Option (List Nat))) :
    List (Option (List Nat)) :=
  (List.range 4).foldl
    (fun z i =>
      if (subencoding >>> i) &&& 1 ≠ 0 then
        if z.getD i none ≠ none then z.set i none else z
      else z)
    zl

/-- readCompressedData: read a compact length, then that many compressed
bytes.  If the selected zlib slot is empty a new zlib reader is created over
the chunk; otherwise the existing reader is `Reset` with the chunk.  Either
way the inflater's input since its creation/reset is exactly the chunk, so
the slot is modelled as `some chunk`.  The first component of the result is
that inflater input. -/
def tightReadCompressedData (zl : List (Option (List Nat))) (zlibStream : Nat)
    (s : List Nat) : Except String (List Nat × List (Option (List Nat)) × List Nat) :=
  match compactLength s with
  | .error e => .error e
  | .ok (len, rest) =>
    if len = 0 then .ok ([], zl, rest)
    else if rest.length < len then .error "failed to read compressed data"
    else
      let chunk := rest.take len
      if zl.getD zlibStream none = none then
        -- zlib.NewReader over the chunk
        .ok (chunk, zl.set zlibStream (some chunk), rest.drop len)
      else
        -- (zlib.Resetter).Reset with the chunk: prior stream state discarded
        .ok (chunk, zl.set zlibStream (some chunk), rest.drop len)

/-
--------------------------------------------------------------------------
Tight encoding: palette filter, monochrome expansion (readTightPalette).
--------------------------------------------------------------------------
-/

/-- The monochrome branch of readTightPalette (paletteSize ≤ 2): for each
byte of the decompressed data, bits are consumed from bit 7 down to bit 0,
each bit selecting a palette entry whose marshalled bytes are appended,
until `totalPixels` pixels have been written.  The bit stream is consumed
continuously — the code has no notion of pixel rows.  (Go indexes
`palette[index]`; the `getD` default is unreachable for a two-entry
palette.) -/
def tightMonoExpand (pf : PixelFormat) (palette : List Color) (data : List Nat)
    (totalPixels : Nat) : List Nat :=
  (data.foldl
    (fun (acc : List Nat × Nat) byteVal =>
      (List.range 8).foldl
        (fun (a : List Nat × Nat) k =>
          if a.2 ≥ totalPixels then a
          else
            let index := (byteVal >>> (7 - k)) &&& 1
            (a.1 ++ colorMarshal pf (palette.getD index colorZero), a.2 + 1))
        acc)
    ([], 0)).1

/-- The claim's (and the Tight specification's) reading of the monochrome
expansion, stated for comparison: one bit per pixel, most-significant bit
first within each byte, and each pixel row padded to a whole byte, so row
`r` takes its bits from the `(width+7)/8` bytes starting at byte
`r * ((width+7)/8)`. -/
def tightMonoExpandRowPadded (pf : PixelFormat) (palette : List Color)
    (data : List Nat) (width height : Nat) : List Nat :=
  let rowBytes := (width + 7) / 8
  (List.range height).foldl
    (fun acc r =>
      acc ++ (List.range width).foldl
        (fun racc xpos =>
          let byteVal := data.getD (r * rowBytes + xpos / 8) 0
          let bit := (byteVal >>> (7 - xpos % 8)) &&& 1
          racc ++ colorMarshal pf (palette.getD bit colorZero))
        [])
    []

/-
--------------------------------------------------------------------------
Tight encoding: gradient filter (readTightGradient).
--------------------------------------------------------------------------
-/

/-- The clamp applied to the gradient predictor in readTightGradient. -/
def clamp255 (n : Int) : Int :=
  if n < 0 then 0 else if n > 255 then 255 else n

/-- The byte offset arithmetic of readTightGradient: `((py*W)+px)*bpp`
computed entirely in Go `uint16`, hence reduced modulo 65536 at every
operation. -/
def tightGradientOffset (w bpp px py : Nat) : Nat :=
  (py * w % 65536 + px) % 65536 * bpp % 65536

/-- One neighbour fetch of readTightGradient: `copy(p[:], pixelData[o:o+bpp])`
with both slice bounds in `uint16`.  Returns the 4-byte neighbour array (as a
lookup function would, via `getD`), or an error when the Go slice expression
would panic (inverted or out-of-range bounds). -/
def tightGradientFetch (pd : List Nat) (o bpp : Nat) : Except String (Nat → Nat) :=
  let hi := (o + bpp) % 65536
  if hi < o ∨ pd.length < hi then .error "tight (gradient): slice bounds out of range"
  else .ok (fun b => pd.getD (o + b) 0)

/-- readTightGradient: decode a Tight gradient rectangle of `w × h` pixels
with `bpp` bytes per pixel from the decompressed correction bytes.  For each
pixel the three neighbour byte vectors are snapshotted, then for every byte
position the clamped predictor `clamp255 (left + above - above_left)` plus
the next correction byte (modulo 256) is stored at the `uint16`-truncated
destination offset. -/
def tightGradientDecode (bpp w h : Nat) (corrections : List Nat) :
    Except String (List Nat) :=
  if bpp ≠ 3 ∧ bpp ≠ 4 then .error "tight (gradient): unsupported bytesPerPixel"
  else
    ((List.range h).foldlM
      (fun (st : List Nat × List Nat) ypos =>
        (List.range w).foldlM
          (fun (st2 : List Nat × List Nat) xpos => do
            let pd := st2.1
            let p1 ← if xpos > 0 then
                tightGradientFetch pd (tightGradientOffset w bpp (xpos - 1) ypos) bpp
              else .ok (fun _ => 0)
            let p2 ← if ypos > 0 then
                tightGradientFetch pd (tightGradientOffset w bpp xpos (ypos - 1)) bpp
              else .ok (fun _ => 0)
            let p3 ← if xpos > 0 ∧ ypos > 0 then
                tightGradientFetch pd (tightGradientOffset w bpp (xpos - 1) (ypos - 1)) bpp
              else .ok (fun _ => 0)
            let cur := tightGradientOffset w bpp xpos ypos
            (List.range bpp).foldlM
              (fun (s3 : List Nat × List Nat) b => do
                let pred := clamp255 ((p1 b : Int) + (p2 b : Int) - (p3 b : Int))
                match s3.2 with
                | [] => .error "tight (gradient): failed to read correction byte"
                | corr :: corrRest =>
                  let wi := (cur + b) % 65536
                  if wi < s3.1.length then
                    .ok (s3.1.set wi ((pred.toNat + corr) % 256), corrRest)
                  else .error "tight (gradient): index out of range")
              st2)
          st)
      (List.replicate (w * h * bpp) 0, corrections)).map Prod.fst

/-
--------------------------------------------------------------------------
ClientConn.receiveN and the byte counters (vncclient.go).
--------------------------------------------------------------------------
-/

/-- The dynamic type of the destination passed to ClientConn.receiveN,
holding its current contents (`*[]uint8`, `*[]int32`, `*bytes.Buffer`). -/
inductive RecvData where
  | u8s (cur : List Nat)
  | i32s (cur : List Int)
  | buffer (cur : List Nat)
deriving DecidableEq

/-- Go `encoding/binary.Size` on the receiveN destination after the reads:
a byte slice has size `len`, an int32 slice `4 * len`, and `bytes.Buffer`
(a struct containing slice and int fields) has no fixed size, so Size
returns `-1`. -/
def binarySize : RecvData → Int
  | .u8s l => l.length
  | .i32s l => 4 * l.length
  | .buffer _ => -1

/-- Modelled from the spec: `metrics.Gauge.Adjust` adds the delta to the
gauge's current value (the metrics package is not under src/; the spec calls
the gauges byte-counter observers that every read/write updates). -/
def gaugeAdjust (v delta : Int) : Int := v + delta

/-- Big-endian signed 32-bit value of four bytes (binary.Read of an int32). -/
def beInt32 (b0 b1 b2 b3 : Nat) : Int :=
  let v := ((b0 * 256 + b1) * 256 + b2) * 256 + b3
  if v < 2 ^ 31 then (v : Int) else (v : Int) - 2 ^ 32

/-- ClientConn.receiveN: read `n` items into the destination, appending to
its contents, then adjust the bytes-received gauge by `binary.Size` of the
destination.  `n = 0` returns immediately without touching the gauge. -/
def clientReceiveN (data : RecvData) (n : Nat) (wire : List Nat)
    (bytesReceived : Int) : Except String (RecvData × List Nat × Int) :=
  if n = 0 then .ok (data, wire, bytesReceived)
  else
    match data with
    | .u8s cur =>
      if wire.length < n then .error "short read"
      else
        let d := RecvData.u8s (cur ++ wire.take n)
        .ok (d, wire.drop n, gaugeAdjust bytesReceived (binarySize d))
    | .i32s cur =>
      if wire.length < 4 * n then .error "short read"
      else
        let vals := (List.range n).map (fun i =>
          beInt32 (wire.getD (4 * i) 0) (wire.getD (4 * i + 1) 0)
                  (wire.getD (4 * i + 2) 0) (wire.getD (4 * i + 3) 0))
        let d := RecvData.i32s (cur ++ vals)
        .ok (d, wire.drop (4 * n), gaugeAdjust bytesReceived (binarySize d))
    | .buffer cur =>
      if wire.length < n then .error "short read"
      else
        let d := RecvData.buffer (cur ++ wire.take n)
        .ok (d, wire.drop n, gaugeAdjust bytesReceived (binarySize d))

/-
--------------------------------------------------------------------------
ZRLE encoding (ZRLEEncoding.Read / Marshal).
--------------------------------------------------------------------------
-/

/-- Big-endian 16-bit read (binary.Read of a uint16). -/
def rd16 : List Nat → Except String (Nat × List Nat)
  | b0 :: b1 :: r => .ok (b0 * 256 + b1, r)
  | _ => .error "short read"

/-- Big-endian 32-bit read (binary.Read of a uint32). -/
def rd32 : List Nat → Except String (Nat × List Nat)
  | b0 :: b1 :: b2 :: b3 :: r => .ok (((b0 * 256 + b1) * 256 + b2) * 256 + b3, r)
  | _ => .error "short read"

/-- Big-endian 16-bit bytes of a value below 65536 (binary.Write of uint16). -/
def be16 (v : Nat) : List Nat := [v / 256 % 256, v % 256]

/-- Big-endian 32-bit bytes (binary.Write of uint32). -/
def be32 (v : Nat) : List Nat :=
  [v / 16777216 % 256, v / 65536 % 256, v / 256 % 256, v % 256]

/-- ZRLE rectangle payload: the decompressed data bytes. -/
structure ZRLEEncoding where
  data : List Nat
deriving DecidableEq

/-- ZRLEEncoding.Read, parameterised by the zlib inflater: read the u32
length; a zero length returns an empty payload at once (no zlib reader is
ever constructed — the result does not depend on `inflate`); otherwise
exactly `length` bytes are fed through a fresh zlib reader. -/
def zrleRead (inflate : List Nat → Except String (List Nat)) (s : List Nat) :
    Except String (ZRLEEncoding × List Nat) :=
  match rd32 s with
  | .error _ => .error "ZRLE: failed to read data length"
  | .ok (dataLen, rest) =>
    if dataLen = 0 then .ok (⟨[]⟩, rest)
    else if rest.length < dataLen then .error "ZRLE: failed to decompress data"
    else
      match inflate (rest.take dataLen) with
      | .error e => .error e
      | .ok d => .ok (⟨d⟩, rest.drop dataLen)

/-- ZRLEEncoding.Marshal, parameterised by the zlib deflater: compress the
data, then write the compressed length as u32 followed by the compressed
bytes. -/
def zrleMarshal (deflate : List Nat → List Nat) (e : ZRLEEncoding) : List Nat :=
  be32 ((deflate e.data).length % 4294967296) ++ deflate e.data

/-
--------------------------------------------------------------------------
ClientConn.ListenAndHandle (vncclient.go).
--------------------------------------------------------------------------
-/

/-- One loop iteration's external input to ListenAndHandle: either the
one-byte message-type read fails (I/O error or EOF), or it yields type `t`
together with the outcome the registered decoder's `Read` would produce on
the message body.  Parsed messages are modelled opaquely as `Nat`. -/
inductive ReadEvent where
  | typeErr
  | typed (t : Nat) (parse : Except String Nat)

/-- The body of the ListenAndHandle for-loop: stop on a failed type read,
on a type missing from the dispatch map (built from the configured
ServerMessages), or on a parse error; otherwise emit the parsed message on
the channel when one is configured (discard when not) and continue.  Every
exit of the loop falls through to `return nil` in the Go code. -/
def listenLoop (registered : List Nat) (chConfigured : Bool) :
    List ReadEvent → List Nat
  | [] => []
  | ReadEvent.typeErr :: _ => []
  | ReadEvent.typed t p :: rest =>
    if t ∈ registered then
      match p with
      | .error _ => []
      | .ok m => (if chConfigured then [m] else []) ++ listenLoop registered chConfigured rest
    else []

/-- ClientConn.ListenAndHandle: an eager error when ServerMessages is
undefined; otherwise run the loop and return nil — the emitted messages are
the loop's channel output. -/
def listenAndHandle (cfgMsgs : Option (List Nat)) (chConfigured : Bool)
    (events : List ReadEvent) : Except String (List Nat) :=
  match cfgMsgs with
  | none => .error "Client config error: ServerMessages undefined"
  | some registered => .ok (listenLoop registered chConfigured events)

/-- An event the loop survives: a successfully read type that is in the
dispatch map and whose body parses. -/
def goodEvent (registered : List Nat) : ReadEvent → Bool
  | ReadEvent.typeErr => false
  | ReadEvent.typed t p =>
    decide (t ∈ registered) && (match p with | .ok _ => true | .error _ => false)

/-- The parsed message carried by an event, when there is one. -/
def eventMsg : ReadEvent → Option Nat
  | ReadEvent.typed _ (.ok m) => some m
  | _ => none

/-- Specification-style description of what the loop emits: the parsed
messages of the maximal prefix of events preceding the first I/O error,
unknown type, or parse error — and nothing when no channel is
configured. -/
def emittedRun (registered : List Nat) (chConfigured : Bool)
    (events : List ReadEvent) : List Nat :=
  if chConfigured then
    (events.takeWhile (goodEvent registered)).filterMap eventMsg
  else []

/-
--------------------------------------------------------------------------
Raw encoding (RawEncoding.Read).
--------------------------------------------------------------------------
-/

/-- The body of RawEncoding.Read's inner (`x`) loop: unmarshal the next
`bpp` buffered bytes (`buf.Next`) into `colors[ypos*W + xpos]`.  The state
carries the colors and the unconsumed part of the buffer. -/
def rawPixelStep (pf : PixelFormat) (cm : List Color) (W bpp ypos : Nat)
    (st : List Color × List Nat) (xpos : Nat) : List Color × List Nat :=
  (st.1.set (ypos * W + xpos) (colorUnmarshal pf cm (st.2.take bpp)),
   st.2.drop bpp)

/-- The body of RawEncoding.Read's outer (`y`) loop: one full pixel row. -/
def rawRowStep (pf : PixelFormat) (cm : List Color) (W bpp : Nat)
    (st : List Color × List Nat) (ypos : Nat) : List Color × List Nat :=
  (List.range W).foldl (rawPixelStep pf cm W bpp ypos) st

/-- The nested pixel loops of RawEncoding.Read: colors start as the zero
value (`make([]Color, rect.Area())`), then each row-major pixel is decoded
from the next `bpp` bytes of the received buffer. -/
def rawFillLoop (pf : PixelFormat) (cm : List Color) (W H bpp : Nat)
    (buf : List Nat) : List Color :=
  ((List.range H).foldl (rawRowStep pf cm W bpp)
    (List.replicate (W * H) colorZero, buf)).1

/-- RawEncoding.Read: receive `area * bytesPerPixel` bytes (an error when
the wire is short), then decode them into a row-major color grid. -/
def rawRead (pf : PixelFormat) (cm : List Color) (rect : Rectangle)
    (stream : List Nat) : Except String (List Color × List Nat) :=
  let bpp := pf.bpp / 8
  let n := rect.area * bpp
  if stream.length < n then .error "unable to read rectangle with raw encoding"
  else .ok (rawFillLoop pf cm rect.width rect.height bpp (stream.take n), stream.drop n)

/-
--------------------------------------------------------------------------
Hextile encoding (HextileEncoding.Read).
--------------------------------------------------------------------------
-/

/-- The state threaded through HextileEncoding.Read's tile loop: the colors
array, the background and foreground colors declared outside the loop (so
they persist across tiles), and the unread wire bytes. -/
structure HexState where
  colors : List Color
  bg : Color
  fg : Color
  stream : List Nat
deriving DecidableEq

/-- One guarded pixel write of HextileEncoding.Read:
`colors[py*W + px] = c` only when the linear index is below the array
length (`if index < len(colors)`). -/
def hextilePut (rectW : Nat) (colors : List Color) (px py : Nat) (c : Color) :
    List Color :=
  let index := py * rectW + px
  if index < colors.length then colors.set index c else colors

/-- The background fill of a tile: paint every `(tx, ty)` of the
`tw × th` tile at `(relX + tx, relY + ty)` (Go uint16 sums) with `c`. -/
def hextileFillTile (rectW relX relY tw th : Nat) (c : Color)
    (colors : List Color) : List Color :=
  (List.range th).foldl
    (fun cs ty =>
      (List.range tw).foldl
        (fun cs2 tx =>
          hextilePut rectW cs2 ((relX + tx) % 65536) ((relY + ty) % 65536) c)
        cs)
    colors

/-- A raw tile: the `tw*th*bpp` byte block is consumed sequentially
(`buf.Next(bpp)`), so pixel `(tx, ty)` of the tile is decoded from bytes
`(ty*tw + tx)*bpp ..` of the block, and written guarded like every other
Hextile write. -/
def hextileRawTile (pf : PixelFormat) (cm : List Color) (rectW relX relY tw th bpp : Nat)
    (block : List Nat) (colors : List Color) : List Color :=
  (List.range th).foldl
    (fun cs ty =>
      (List.range tw).foldl
        (fun cs2 tx =>
          hextilePut rectW cs2 ((relX + tx) % 65536) ((relY + ty) % 65536)
            (colorUnmarshal pf cm ((block.drop ((ty * tw + tx) * bpp)).take bpp)))
        cs)
    colors

/-- Painting one Hextile sub-rectangle: `subW × subH` pixels starting at the
packed offsets `(subX, subY)` inside the tile at `(relX, relY)`, with all
coordinate sums in Go uint16. -/
def hextilePaintSubrect (rectW relX relY subX subY subW subH : Nat) (c : Color)
    (colors : List Color) : List Color :=
  (List.range subH).foldl
    (fun cs sy =>
      (List.range subW).foldl
        (fun cs2 sx =>
          hextilePut rectW cs2 ((relX + subX + sx) % 65536) ((relY + subY + sy) % 65536) c)
        cs)
    colors

/-- The two optional one-pixel color reads of a Hextile tile (background
when bit 1 is set, foreground when bit 2 is set), and the per-sub-rectangle
color read: read and unmarshal `bpp` bytes when the flag is set, keep the
current color otherwise. -/
def readColorIf (b : Bool) (pf : PixelFormat) (cm : List Color) (bpp : Nat)
    (dflt : Color) (s : List Nat) : Except String (Color × List Nat) :=
  if b then
    if s.length < bpp then .error "hextile: failed to read color"
    else .ok (colorUnmarshal pf cm (s.take bpp), s.drop bpp)
  else .ok (dflt, s)

/-- The sub-rectangle loop of a Hextile tile: for each of the `n`
sub-rectangles read an optional color (foreground when SubrectsColoured is
clear), then the packed `xy` and `wh` geometry bytes (x offset high nibble
of `xy`, width-1 high nibble of `wh`), and paint. -/
def hextileSubrects (pf : PixelFormat) (cm : List Color) (rectW relX relY bpp : Nat)
    (coloured : Bool) (fg : Color) :
    Nat → List Color → List Nat → Except String (List Color × List Nat)
  | 0, colors, s => .ok (colors, s)
  | Nat.succ n, colors, s =>
    match readColorIf coloured pf cm bpp fg s with
    | .error _ => .error "hextile: failed to read subrect color"
    | .ok (subColor, s1) =>
      match s1 with
      | [] => .error "hextile: failed to read subrect geometry xy"
      | xy :: s2 =>
        match s2 with
        | [] => .error "hextile: failed to read subrect geometry wh"
        | wh :: s3 =>
          hextileSubrects pf cm rectW relX relY bpp coloured fg n
            (hextilePaintSubrect rectW relX relY ((xy >>> 4) &&& 0x0F) (xy &&& 0x0F)
              (((wh >>> 4) &&& 0x0F) + 1) ((wh &&& 0x0F) + 1) subColor colors)
            s3

/-- The width of the tile whose left edge is at absolute `x`: 16, except a
partial tile at the right edge (`rect.X + rect.Width - x < 16`). -/
def hexTileW (rect : Rectangle) (x : Nat) : Nat :=
  if rect.x + rect.width - x < 16 then rect.x + rect.width - x else 16

/-- The height of the tile whose top edge is at absolute `y`. -/
def hexTileH (rect : Rectangle) (y : Nat) : Nat :=
  if rect.y + rect.height - y < 16 then rect.y + rect.height - y else 16

/-- One tile of HextileEncoding.Read at absolute origin `(x, y)`: read the
sub-encoding mask; a Raw tile (bit 0) reads the pixel block and continues;
otherwise optionally update the persistent background (bit 1) and
foreground (bit 2), fill the tile with the background, and when
AnySubrects (bit 3) is set read the count byte and the sub-rectangles
(coloured per bit 4). -/
def hextileTile (pf : PixelFormat) (cm : List Color) (rect : Rectangle)
    (x y : Nat) (s : HexState) : Except String HexState :=
  let bpp := pf.bpp / 8
  let tileW := hexTileW rect x
  let tileH := hexTileH rect y
  let relX := x - rect.x
  let relY := y - rect.y
  match s.stream with
  | [] => .error "hextile: error reading subencoding mask"
  | mask :: rest =>
    if mask &&& 0x01 ≠ 0 then
      if rest.length < tileW * tileH * bpp then .error "hextile: failed to read raw tile"
      else
        .ok ⟨hextileRawTile pf cm rect.width relX relY tileW tileH bpp
               (rest.take (tileW * tileH * bpp)) s.colors,
             s.bg, s.fg, rest.drop (tileW * tileH * bpp)⟩
    else
      match readColorIf (mask &&& 0x02 != 0) pf cm bpp s.bg rest with
      | .error e => .error e
      | .ok (bg, s1) =>
        match readColorIf (mask &&& 0x04 != 0) pf cm bpp s.fg s1 with
        | .error e => .error e
        | .ok (fg, s2) =>
          let colors1 := hextileFillTile rect.width relX relY tileW tileH bg s.colors
          if mask &&& 0x08 ≠ 0 then
            match s2 with
            | [] => .error "hextile: failed to read sub-rectangle count"
            | cnt :: s3 =>
              match hextileSubrects pf cm rect.width relX relY bpp (mask &&& 0x10 != 0)
                      fg cnt colors1 s3 with
              | .error e => .error e
              | .ok (colors2, s4) => .ok ⟨colors2, bg, fg, s4⟩
          else .ok ⟨colors1, bg, fg, s2⟩

/-- The row-major tile origins of the Hextile double loop (`y` then `x`,
step 16).  This models the Go loop for rectangles whose extents do not
overflow uint16 (`rect.y + rect.height ≤ 65535` and likewise for x), where
it runs `⌈height/16⌉ × ⌈width/16⌉` iterations. -/
def tileOrigins (rect : Rectangle) : List (Nat × Nat) :=
  (List.range ((rect.height + 15) / 16)).flatMap
    (fun j => (List.range ((rect.width + 15) / 16)).map
      (fun i => (rect.x + 16 * i, rect.y + 16 * j)))

/-- HextileEncoding.Read: colors start as `rect.Area()` zero values,
background and foreground start as zero values, and the tiles are processed
in row-major order. -/
def hextileRead (pf : PixelFormat) (cm : List Color) (rect : Rectangle)
    (stream : List Nat) : Except String (List Color × List Nat) :=
  match (tileOrigins rect).foldlM
      (fun st (xy : Nat × Nat) => hextileTile pf cm rect xy.1 xy.2 st)
      (⟨List.replicate rect.area colorZero, colorZero, colorZero, stream⟩ : HexState) with
  | .error e => .error e
  | .ok st => .ok (st.colors, st.stream)

/-
--------------------------------------------------------------------------
CopyRect and RRE encodings (CopyRectEncoding, RREEncoding).
--------------------------------------------------------------------------
-/

/-- CopyRect rectangle payload: the source coordinates. -/
structure CopyRectEncoding where
  srcX : Nat
  srcY : Nat
deriving DecidableEq

/-- CopyRectEncoding.Read: one binary.Read of two big-endian u16 fields. -/
def copyRectRead (s : List Nat) : Except String (CopyRectEncoding × List Nat) :=
  match rd16 s with
  | .error _ => .error "failed to read copyrect encoding"
  | .ok (sx, s1) =>
    match rd16 s1 with
    | .error _ => .error "failed to read copyrect encoding"
    | .ok (sy, s2) => .ok (⟨sx, sy⟩, s2)

/-- CopyRectEncoding.Marshal: SrcX then SrcY, big-endian u16 each. -/
def copyRectMarshal (e : CopyRectEncoding) : List Nat :=
  be16 e.srcX ++ be16 e.srcY

/-- One RRE sub-rectangle: a color and its geometry. -/
structure RRESubRect where
  color : Color
  rect : Rectangle
deriving DecidableEq

/-- RRE rectangle payload: a background color and the sub-rectangles. -/
structure RREEncoding where
  backgroundColor : Color
  subRects : List RRESubRect
deriving DecidableEq

/-- The per-sub-rectangle part of RREEncoding.Marshal: each sub-rect's
pixel bytes followed by its four u16 geometry fields (binary.Write of the
Rectangle struct writes X, Y, Width, Height in order). -/
def rreMarshalSubs (pf : PixelFormat) : List RRESubRect → List Nat
  | [] => []
  | sr :: t => colorMarshal pf sr.color ++ be16 sr.rect.x ++ be16 sr.rect.y
      ++ be16 sr.rect.width ++ be16 sr.rect.height ++ rreMarshalSubs pf t

/-- RREEncoding.Marshal: u32 sub-rect count (uint32 conversion wraps), the
background pixel, then the sub-rectangles. -/
def rreMarshal (pf : PixelFormat) (e : RREEncoding) : List Nat :=
  be32 (e.subRects.length % 4294967296) ++ colorMarshal pf e.backgroundColor
    ++ rreMarshalSubs pf e.subRects

/-- The sub-rectangle loop of RREEncoding.Read: for each sub-rect read
`bytesPerPixel` pixel bytes (io.ReadFull, error on short wire), unmarshal
them, then read the four u16 geometry fields. -/
def rreReadSubs (pf : PixelFormat) (cm : List Color) (bpp : Nat) :
    Nat → List Nat → Except String (List RRESubRect × List Nat)
  | 0, s => .ok ([], s)
  | Nat.succ n, s =>
    if s.length < bpp then .error "RRE: failed to read sub-rect color"
    else
      match rd16 (s.drop bpp) with
      | .error _ => .error "RRE: failed to read sub-rect geometry"
      | .ok (gx, s1) =>
        match rd16 s1 with
        | .error _ => .error "RRE: failed to read sub-rect geometry"
        | .ok (gy, s2) =>
          match rd16 s2 with
          | .error _ => .error "RRE: failed to read sub-rect geometry"
          | .ok (gw, s3) =>
            match rd16 s3 with
            | .error _ => .error "RRE: failed to read sub-rect geometry"
            | .ok (gh, s4) =>
              match rreReadSubs pf cm bpp n s4 with
              | .error e => .error e
              | .ok (l, s5) =>
                .ok (⟨colorUnmarshal pf cm (s.take bpp), ⟨gx, gy, gw, gh⟩⟩ :: l, s5)

/-- RREEncoding.Read: u32 sub-rect count, background pixel, then the
sub-rectangle loop. -/
def rreRead (pf : PixelFormat) (cm : List Color) (s : List Nat) :
    Except String (RREEncoding × List Nat) :=
  match rd32 s with
  | .error _ => .error "RRE: failed to read sub-rectangle count"
  | .ok (n, s1) =>
    if s1.length < pf.bpp / 8 then .error "RRE: failed to read background color"
    else
      match rreReadSubs pf cm (pf.bpp / 8) n (s1.drop (pf.bpp / 8)) with
      | .error e => .error e
      | .ok (l, s2) => .ok (⟨colorUnmarshal pf cm (s1.take (pf.bpp / 8)), l⟩, s2)

/-
==========================================================================
Theorems
==========================================================================
-/

/-- C1: the claim says a Tight rectangle whose compression-control byte has
reset bit `i` clear decompresses its chunk as a continuation of zlib stream
`i`'s state left by the previous rectangle.  The code does not do this:
after a first rectangle fed chunk `[0xAA, 0xBB]` into stream 0, a second
rectangle with all reset bits clear (`tightResetStreams 0` leaves the slot
untouched) still hands the inflater only its own chunk `[0xCC, 0xDD]` —
`Reset` discards the previous stream state — instead of the continuation
`[0xAA, 0xBB] ++ [0xCC, 0xDD]`.  Only the reset-bit-set half of the claim
(discard before use) holds. -/
theorem tight_stream_not_continued :
    tightResetStreams 0 [some [0xAA, 0xBB], none, none, none]
      = [some [0xAA, 0xBB], none, none, none]
    ∧ tightReadCompressedData [some [0xAA, 0xBB], none, none, none] 0 [2, 0xCC, 0xDD]
      = .ok ([0xCC, 0xDD], [some [0xCC, 0xDD], none, none, none], [])
    ∧ ([0xCC, 0xDD] : List Nat) ≠ [0xAA, 0xBB] ++ [0xCC, 0xDD] :=
  ⟨rfl, rfl, by decide⟩

/-- C3: the claim says the monochrome (palette size ≤ 2) Tight index stream
is decoded with each pixel row padded to a whole byte.  The code consumes
the bit stream continuously across rows: for a 4×2 rectangle with data
`[0xF0, 0xF0]` it takes all eight pixels from byte 0 (second row from the
low nibble, byte 1 ignored), whereas the row-padded reading takes row 1
from byte 1.  The MSB-first part of the claim does hold.  Palette entry 0
marshals to byte 0 and entry 1 to byte 1 under `pixelFormat8bit`. -/
theorem tight_palette_rows_not_padded :
    tightMonoExpand pixelFormat8bit [colorZero, ⟨0, 0, 1⟩] [0xF0, 0xF0] 8
      = [1, 1, 1, 1, 0, 0, 0, 0]
    ∧ tightMonoExpandRowPadded pixelFormat8bit [colorZero, ⟨0, 0, 1⟩] [0xF0, 0xF0] 4 2
      = [1, 1, 1, 1, 1, 1, 1, 1]
    ∧ ([1, 1, 1, 1, 0, 0, 0, 0] : List Nat) ≠ [1, 1, 1, 1, 1, 1, 1, 1] :=
  ⟨rfl, rfl, by decide⟩

/-- C4: the claim requires every pixel's bytes to satisfy the gradient
predictor relation at that pixel's own raster position.  The code computes
all byte offsets in `uint16`, so every write lands below 65536 (first
conjunct) even though a 16384×2, 4-bytes-per-pixel raster has 131072 byte
positions; in particular pixel (0, 1)'s destination offset wraps to 0 and
aliases pixel (0, 0) (second and third conjuncts).  The last conjunct
evaluates the decoder on a small rectangle, where the predictor relation
does hold. -/
theorem tight_gradient_offsets_wrap :
    (∀ w bpp px py, tightGradientOffset w bpp px py < 65536)
    ∧ tightGradientOffset 16384 4 0 1 = 0
    ∧ tightGradientOffset 16384 4 0 0 = 0
    ∧ tightGradientDecode 4 2 1 [1, 2, 3, 4, 5, 6, 7, 8]
      = .ok [1, 2, 3, 4, 6, 8, 10, 12] :=
  ⟨fun _ _ _ _ => Nat.mod_lt _ (by norm_num), rfl, rfl, rfl⟩

/-- C8: the claim says every receive/receiveN/send operation adjusts its
byte counter by a non-negative amount.  receiveN with a `*bytes.Buffer`
destination (exactly what RawEncoding.Read passes) adjusts the
bytes-received gauge by `binary.Size(*bytes.Buffer) = -1`: after reading
five bytes the counter drops from 100 to 99. -/
theorem receiveN_buffer_counter_decreases :
    clientReceiveN (RecvData.buffer []) 5 [1, 2, 3, 4, 5] 100
      = .ok (RecvData.buffer [1, 2, 3, 4, 5], [], 99)
    ∧ (99 : Int) < 100 :=
  ⟨rfl, by decide⟩

/-- C10: a ZRLE rectangle with a zero u32 length field succeeds, returns an
empty decompressed payload, consumes exactly the four length bytes, and
never constructs a zlib reader — witnessed by the result being the same for
every inflater `inflate`. -/
theorem zrle_zero_length (inflate : List Nat → Except String (List Nat))
    (rest : List Nat) :
    zrleRead inflate (0 :: 0 :: 0 :: 0 :: rest) = .ok (⟨[]⟩, rest) :=
  rfl

/-- Helper: the loop's channel output is exactly the parsed messages of the
maximal good prefix of the event stream. -/
theorem listenLoop_eq_emittedRun (registered : List Nat) (ch : Bool) :
    ∀ events, listenLoop registered ch events = emittedRun registered ch events := by
  intro events
  induction events with
  | nil => cases ch <;> simp [listenLoop, emittedRun]
  | cons e rest ih =>
    cases e with
    | typeErr => cases ch <;> simp [listenLoop, emittedRun, goodEvent]
    | typed t p =>
      by_cases ht : t ∈ registered
      · cases p with
        | error msg =>
          cases ch <;> simp [listenLoop, emittedRun, goodEvent, ht]
        | ok m =>
          cases ch with
          | false =>
            simpa [listenLoop, emittedRun, goodEvent, ht] using ih
          | true =>
            simp only [listenLoop, emittedRun, goodEvent, ht, if_pos, if_true,
              List.takeWhile_cons, decide_True, Bool.true_and] at ih ⊢
            simpa [eventMsg] using ih
      · cases p <;> cases ch <;>
          simp [listenLoop, emittedRun, goodEvent, ht]

/-- C5 (counterexample): the claim says ListenAndHandle terminates with an
error whenever it encounters a message type not present in its dispatch
map.  With only type 0 registered, an incoming message of type 5 makes the
loop stop, but ListenAndHandle still returns nil (`Except.ok`), not an
error. -/
theorem listenAndHandle_unknown_type_no_error :
    listenAndHandle (some [0]) true [ReadEvent.typed 5 (Except.ok 7)] = .ok []
    ∧ ¬ ((5 : Nat) ∈ ([0] : List Nat)) :=
  ⟨rfl, by decide⟩

/-- C5 (amended): the loop does stop at the first I/O error, unknown
message type, or parse error, emitting exactly the parsed messages that
precede it (and nothing without a configured channel) — but ListenAndHandle
returns nil in all these cases; its only error return is the eager
configuration check when ServerMessages is undefined. -/
theorem listenAndHandle_always_ok (registered : List Nat) (ch : Bool)
    (events : List ReadEvent) :
    listenAndHandle (some registered) ch events
      = .ok (emittedRun registered ch events)
    ∧ listenAndHandle none ch events
      = .error "Client config error: ServerMessages undefined" := by
  refine ⟨?_, rfl⟩
  simp [listenAndHandle, listenLoop_eq_emittedRun]


/-- Helper: one Raw pixel row consumes `k * bpp` buffer bytes, preserves the
color count, writes only positions `ypos*W .. ypos*W + k - 1`, and stores at
`ypos*W + xpos` the color decoded from bytes `xpos*bpp .. xpos*bpp + bpp - 1`
of the row's buffer. -/
theorem rawPixel_fold_spec (pf : PixelFormat) (cm : List Color) (W bpp ypos : Nat) :
    ∀ (k : Nat) (cs : List Color) (b : List Nat),
      ((List.range k).foldl (rawPixelStep pf cm W bpp ypos) (cs, b)).2 = b.drop (k * bpp)
      ∧ ((List.range k).foldl (rawPixelStep pf cm W bpp ypos) (cs, b)).1.length = cs.length
      ∧ (∀ i, i < ypos * W ∨ ypos * W + k ≤ i →
          ((List.range k).foldl (rawPixelStep pf cm W bpp ypos) (cs, b)).1[i]? = cs[i]?)
      ∧ (∀ xpos, xpos < k → ypos * W + k ≤ cs.length →
          ((List.range k).foldl (rawPixelStep pf cm W bpp ypos) (cs, b)).1[ypos * W + xpos]?
            = some (colorUnmarshal pf cm ((b.drop (xpos * bpp)).take bpp))) := by
  intro k
  induction k with
  | zero =>
    intro cs b
    refine ⟨by simp, by simp, fun i _ => by simp, fun xpos hx => absurd hx (Nat.not_lt_zero _)⟩
  | succ k ih =>
    intro cs b
    obtain ⟨h2, hlen, hout, hin⟩ := ih cs b
    have hr : List.range (k + 1) = List.range k ++ [k] := by
      simpa using List.range_succ (n := k)
    rw [hr, List.foldl_append, List.foldl_cons, List.foldl_nil]
    set R := (List.range k).foldl (rawPixelStep pf cm W bpp ypos) (cs, b) with hR
    refine ⟨?_, ?_, ?_, ?_⟩
    · show R.2.drop bpp = b.drop ((k + 1) * bpp)
      rw [h2, List.drop_drop]
      congr 1
      ring
    · show (R.1.set (ypos * W + k) _).length = cs.length
      rw [List.length_set, hlen]
    · intro i hi
      show (R.1.set (ypos * W + k) _)[i]? = cs[i]?
      rw [List.getElem?_set_ne (by omega), hout i (by omega)]
    · intro xpos hx hcs
      rcases Nat.lt_succ_iff_lt_or_eq.mp hx with hlt | heq
      · show (R.1.set (ypos * W + k) _)[ypos * W + xpos]? = _
        rw [List.getElem?_set_ne (by omega), hin xpos hlt (by omega)]
      · subst heq
        show (R.1.set (ypos * W + xpos) (colorUnmarshal pf cm (R.2.take bpp)))[ypos * W + xpos]? = _
        rw [List.getElem?_set_eq_of_lt _ (by rw [hlen]; omega), h2]

/-- Helper: the Raw row loop over `rows` rows consumes `rows * W * bpp`
bytes, preserves the color count, leaves positions from `rows * W` on
untouched, and stores at `ypos*W + xpos` the color decoded from the
`(ypos*W + xpos)`-th group of `bpp` buffer bytes. -/
theorem rawRow_fold_spec (pf : PixelFormat) (cm : List Color) (W bpp : Nat) :
    ∀ (rows : Nat) (cs : List Color) (b : List Nat), rows * W ≤ cs.length →
      ((List.range rows).foldl (rawRowStep pf cm W bpp) (cs, b)).2 = b.drop (rows * W * bpp)
      ∧ ((List.range rows).foldl (rawRowStep pf cm W bpp) (cs, b)).1.length = cs.length
      ∧ (∀ i, rows * W ≤ i →
          ((List.range rows).foldl (rawRowStep pf cm W bpp) (cs, b)).1[i]? = cs[i]?)
      ∧ (∀ xpos ypos, xpos < W → ypos < rows →
          ((List.range rows).foldl (rawRowStep pf cm W bpp) (cs, b)).1[ypos * W + xpos]?
            = some (colorUnmarshal pf cm ((b.drop ((ypos * W + xpos) * bpp)).take bpp))) := by
  intro rows
  induction rows with
  | zero =>
    intro cs b _
    refine ⟨by simp, by simp, fun i _ => by simp,
      fun _ ypos _ hy => absurd hy (Nat.not_lt_zero _)⟩
  | succ rows ih =>
    intro cs b hcs
    have hsm : (rows + 1) * W = rows * W + W := Nat.succ_mul rows W
    obtain ⟨h2, hlen, hout, hin⟩ := ih cs b (by omega)
    have hr : List.range (rows + 1) = List.range rows ++ [rows] := by
      simpa using List.range_succ (n := rows)
    rw [hr, List.foldl_append, List.foldl_cons, List.foldl_nil]
    set R := (List.range rows).foldl (rawRowStep pf cm W bpp) (cs, b) with hR
    obtain ⟨p2, plen, pout, pin⟩ := rawPixel_fold_spec pf cm W bpp rows W R.1 R.2
    refine ⟨?_, ?_, ?_, ?_⟩
    · show ((List.range W).foldl (rawPixelStep pf cm W bpp rows) R).2 = _
      have : ((List.range W).foldl (rawPixelStep pf cm W bpp rows) (R.1, R.2)).2
          = R.2.drop (W * bpp) := p2
      rw [show (R.1, R.2) = R from rfl] at this
      rw [this, h2, List.drop_drop]
      congr 1
      rw [hsm]
      ring
    · show ((List.range W).foldl (rawPixelStep pf cm W bpp rows) R).1.length = _
      have : ((List.range W).foldl (rawPixelStep pf cm W bpp rows) (R.1, R.2)).1.length
          = R.1.length := plen
      rw [show (R.1, R.2) = R from rfl] at this
      rw [this, hlen]
    · intro i hi
      show ((List.range W).foldl (rawPixelStep pf cm W bpp rows) R).1[i]? = _
      have hp := pout i (Or.inr (by omega))
      rw [show (R.1, R.2) = R from rfl] at hp
      rw [hp, hout i (by omega)]
    · intro xpos ypos hx hy
      show ((List.range W).foldl (rawPixelStep pf cm W bpp rows) R).1[ypos * W + xpos]? = _
      rcases Nat.lt_succ_iff_lt_or_eq.mp hy with hlt | heq
      · have hyW : (ypos + 1) * W ≤ rows * W := Nat.mul_le_mul_right W (by omega)
        have hyW2 : (ypos + 1) * W = ypos * W + W := Nat.succ_mul ypos W
        have hidx : ypos * W + xpos < rows * W := by omega
        have hp := pout (ypos * W + xpos) (Or.inl hidx)
        rw [show (R.1, R.2) = R from rfl] at hp
        rw [hp, hin xpos ypos hx hlt]
      · subst heq
        have hp := pin xpos hx (by rw [hlen]; omega)
        rw [show (R.1, R.2) = R from rfl] at hp
        rw [hp, h2, List.drop_drop]
        congr 3
        ring

/-- C6: for a pixel format with bits-per-pixel 8, 16 or 32 and a wire
holding at least `area * bytesPerPixel` bytes, Raw decoding succeeds,
consumes exactly `area * bytesPerPixel` bytes from the wire, returns
exactly `width * height` colors, and the color at row-major position
`ypos*width + xpos` is decoded from that pixel's `bytesPerPixel` wire bytes
via the PixelFormat (and ColorMap when the format is non-true-color). -/
theorem raw_read_exact (pf : PixelFormat) (cm : List Color) (rect : Rectangle)
    (stream : List Nat) (hbpp : pf.bpp = 8 ∨ pf.bpp = 16 ∨ pf.bpp = 32)
    (hlen : rect.area * (pf.bpp / 8) ≤ stream.length) :
    rawRead pf cm rect stream
      = .ok (rawFillLoop pf cm rect.width rect.height (pf.bpp / 8)
               (stream.take (rect.area * (pf.bpp / 8))),
             stream.drop (rect.area * (pf.bpp / 8)))
    ∧ (rawFillLoop pf cm rect.width rect.height (pf.bpp / 8)
         (stream.take (rect.area * (pf.bpp / 8)))).length = rect.area
    ∧ (∀ xpos ypos, xpos < rect.width → ypos < rect.height →
        (rawFillLoop pf cm rect.width rect.height (pf.bpp / 8)
           (stream.take (rect.area * (pf.bpp / 8))))[ypos * rect.width + xpos]?
          = some (colorUnmarshal pf cm
              ((stream.drop ((ypos * rect.width + xpos) * (pf.bpp / 8))).take (pf.bpp / 8)))) := by
  obtain ⟨f2, flen, fout, fin⟩ :=
    rawRow_fold_spec pf cm rect.width (pf.bpp / 8) rect.height
      (List.replicate (rect.width * rect.height) colorZero)
      (stream.take (rect.area * (pf.bpp / 8)))
      (by simp [Nat.mul_comm])
  refine ⟨?_, ?_, ?_⟩
  · show (if stream.length < rect.area * (pf.bpp / 8) then _ else _) = _
    rw [if_neg (by omega)]
  · unfold rawFillLoop
    rw [flen, List.length_replicate, Rectangle.area]
  · intro xpos ypos hx hy
    unfold rawFillLoop
    rw [fin xpos ypos hx hy]
    have h1 : (ypos * rect.width + xpos + 1) * (pf.bpp / 8)
        ≤ rect.area * (pf.bpp / 8) := by
      refine Nat.mul_le_mul_right _ ?_
      have h2 : (ypos + 1) * rect.width ≤ rect.height * rect.width :=
        Nat.mul_le_mul_right _ (by omega)
      have h3 : (ypos + 1) * rect.width = ypos * rect.width + rect.width :=
        Nat.succ_mul ypos rect.width
      have h4 : rect.area = rect.width * rect.height := rfl
      have h5 : rect.width * rect.height = rect.height * rect.width :=
        Nat.mul_comm _ _
      omega
    have h6 : (ypos * rect.width + xpos + 1) * (pf.bpp / 8)
        = (ypos * rect.width + xpos) * (pf.bpp / 8) + (pf.bpp / 8) :=
      Nat.succ_mul _ _
    congr 2
    rw [List.drop_take (rect.area * (pf.bpp / 8))
      ((ypos * rect.width + xpos) * (pf.bpp / 8)) stream]
    rw [List.take_take, Nat.min_eq_left (by omega)]

/-- C6 (witness): a 2×1 rectangle in the canonical 32-bit true-color format
decoded from eight wire bytes: the run succeeds consuming the whole wire,
and pixel (1, 0) is decoded from bytes 4..7. -/
theorem raw_read_exact_witness :
    rawRead pixelFormat32bit [] ⟨0, 0, 2, 1⟩ [255, 0, 0, 0, 0, 255, 0, 0]
      = .ok (rawFillLoop pixelFormat32bit [] 2 1 4 [255, 0, 0, 0, 0, 255, 0, 0], [])
    ∧ (rawFillLoop pixelFormat32bit [] 2 1 4 [255, 0, 0, 0, 0, 255, 0, 0])[1]?
      = some (colorUnmarshal pixelFormat32bit [] [0, 255, 0, 0]) := by
  have h := raw_read_exact pixelFormat32bit [] ⟨0, 0, 2, 1⟩
    [255, 0, 0, 0, 0, 255, 0, 0] (Or.inr (Or.inr rfl)) (by decide)
  exact ⟨h.1, h.2.2 1 0 (by decide) (by decide)⟩

/-- Helper: a fold whose step preserves list length preserves list length. -/
theorem foldl_preserves_length {α : Type} (f : List Color → α → List Color)
    (hf : ∀ cs a, (f cs a).length = cs.length) :
    ∀ (l : List α) (cs : List Color), (l.foldl f cs).length = cs.length := by
  intro l
  induction l with
  | nil => intro cs; rfl
  | cons a t ih => intro cs; rw [List.foldl_cons, ih, hf]

/-- Helper: a guarded Hextile write never changes the color count. -/
theorem hextilePut_length (rectW : Nat) (colors : List Color) (px py : Nat) (c : Color) :
    (hextilePut rectW colors px py c).length = colors.length := by
  by_cases h : py * rectW + px < colors.length <;> simp [hextilePut, h]

/-- Helper: the background fill never changes the color count. -/
theorem hextileFillTile_length (rectW relX relY tw th : Nat) (c : Color)
    (colors : List Color) :
    (hextileFillTile rectW relX relY tw th c colors).length = colors.length := by
  unfold hextileFillTile
  refine foldl_preserves_length _ (fun cs ty => ?_) _ _
  exact foldl_preserves_length _ (fun cs2 tx => hextilePut_length _ _ _ _ _) _ _

/-- Helper: a raw tile never changes the color count. -/
theorem hextileRawTile_length (pf : PixelFormat) (cm : List Color)
    (rectW relX relY tw th bpp : Nat) (block : List Nat) (colors : List Color) :
    (hextileRawTile pf cm rectW relX relY tw th bpp block colors).length = colors.length := by
  unfold hextileRawTile
  refine foldl_preserves_length _ (fun cs ty => ?_) _ _
  exact foldl_preserves_length _ (fun cs2 tx => hextilePut_length _ _ _ _ _) _ _

/-- Helper: painting a sub-rectangle never changes the color count. -/
theorem hextilePaintSubrect_length (rectW relX relY subX subY subW subH : Nat)
    (c : Color) (colors : List Color) :
    (hextilePaintSubrect rectW relX relY subX subY subW subH c colors).length
      = colors.length := by
  unfold hextilePaintSubrect
  refine foldl_preserves_length _ (fun cs sy => ?_) _ _
  exact foldl_preserves_length _ (fun cs2 sx => hextilePut_length _ _ _ _ _) _ _

/-- Helper: the sub-rectangle loop never changes the color count. -/
theorem hextileSubrects_length (pf : PixelFormat) (cm : List Color)
    (rectW relX relY bpp : Nat) (coloured : Bool) (fg : Color) :
    ∀ (n : Nat) (colors : List Color) (s : List Nat) (colors2 : List Color) (s4 : List Nat),
      hextileSubrects pf cm rectW relX relY bpp coloured fg n colors s = .ok (colors2, s4) →
      colors2.length = colors.length := by
  intro n
  induction n with
  | zero =>
    intro colors s colors2 s4 h
    unfold hextileSubrects at h
    cases h
    rfl
  | succ n ih =>
    intro colors s colors2 s4 h
    unfold hextileSubrects at h
    split at h
    · exact absurd h (by simp)
    · split at h
      · exact absurd h (by simp)
      · split at h
        · exact absurd h (by simp)
        · rw [ih _ _ _ _ h, hextilePaintSubrect_length]

/-- Helper: one Hextile tile never changes the color count. -/
theorem hextileTile_length (pf : PixelFormat) (cm : List Color) (rect : Rectangle)
    (x y : Nat) (s s' : HexState) (h : hextileTile pf cm rect x y s = .ok s') :
    s'.colors.length = s.colors.length := by
  simp only [hextileTile] at h
  split at h
  · exact absurd h (by simp)
  · split at h
    · split at h
      · exact absurd h (by simp)
      · cases h
        exact hextileRawTile_length _ _ _ _ _ _ _ _ _ _
    · split at h
      · exact absurd h (by simp)
      · split at h
        · exact absurd h (by simp)
        · split at h
          · split at h
            · exact absurd h (by simp)
            · split at h
              · exact absurd h (by simp)
              · next colors2 s4 hsub =>
                  cases h
                  simp only
                  rw [hextileSubrects_length _ _ _ _ _ _ _ _ _ _ _ _ _ hsub,
                    hextileFillTile_length]
          · cases h
            simp only
            rw [hextileFillTile_length]

/-- Helper: the whole Hextile tile fold never changes the color count. -/
theorem hextileFold_length (pf : PixelFormat) (cm : List Color) (rect : Rectangle) :
    ∀ (l : List (Nat × Nat)) (st res : HexState),
      l.foldlM (fun st (xy : Nat × Nat) => hextileTile pf cm rect xy.1 xy.2 st) st = .ok res →
      res.colors.length = st.colors.length := by
  intro l
  induction l with
  | nil =>
    intro st res h
    cases h
    rfl
  | cons a t ih =>
    intro st res h
    rw [List.foldlM_cons] at h
    cases ha : hextileTile pf cm rect a.1 a.2 st with
    | error e =>
      rw [ha] at h
      exact absurd h (fun hh => Except.noConfusion hh)
    | ok st1 =>
      rw [ha] at h
      rw [ih st1 res h, hextileTile_length pf cm rect a.1 a.2 st st1 ha]

/-- C7 (amended): Hextile decoding is total and memory-safe — every pixel
write is guarded by the linear bound `index < len(colors)`, so a successful
decode always returns exactly `width * height` colors and never writes
outside that array; but an out-of-bounds sub-rectangle is clipped only by
that linear bound, so it can wrap onto following rows (see the
counterexample) rather than being dropped. -/
theorem hextile_area_preserved (pf : PixelFormat) (cm : List Color) (rect : Rectangle)
    (stream : List Nat) (colors : List Color) (rest : List Nat)
    (h : hextileRead pf cm rect stream = .ok (colors, rest)) :
    colors.length = rect.area := by
  unfold hextileRead at h
  split at h
  · exact absurd h (by simp)
  · next st hfold =>
    cases h
    rw [hextileFold_length pf cm rect _ _ _ hfold, List.length_replicate]

/-- C7 (counterexample): the claim says an out-of-bounds Hextile
sub-rectangle is clipped so that no pixel outside it is modified.  In a 4×2
rectangle, a single tile with mask 0x18 (AnySubrects + SubrectsColoured)
and one sub-rectangle at x-offset 2, width 4 (extending past the rectangle)
paints linear indices 2..5 — indices 4 and 5 are pixels (0,1) and (1,1) of
the NEXT row, which the claim says must keep their background value
`colorZero`, yet they end up with the sub-rectangle color. -/
theorem hextile_subrect_not_clipped :
    hextileRead pixelFormat8bit [] ⟨0, 0, 4, 2⟩ [0x18, 1, 7, 0x20, 0x30]
      = .ok ([colorZero, colorZero, ⟨0, 1, 3⟩, ⟨0, 1, 3⟩, ⟨0, 1, 3⟩, ⟨0, 1, 3⟩,
              colorZero, colorZero], [])
    ∧ (⟨0, 1, 3⟩ : Color) ≠ colorZero :=
  ⟨rfl, by decide⟩

/-- C7 (witness): the amended theorem applied to the concrete 4×2 run. -/
theorem hextile_area_preserved_witness :
    ([colorZero, colorZero, ⟨0, 1, 3⟩, ⟨0, 1, 3⟩, ⟨0, 1, 3⟩, ⟨0, 1, 3⟩,
      colorZero, colorZero] : List Color).length = Rectangle.area ⟨0, 0, 4, 2⟩ :=
  hextile_area_preserved pixelFormat8bit [] ⟨0, 0, 4, 2⟩ [0x18, 1, 7, 0x20, 0x30] _ [] rfl

/-- Helper: a guarded write either stores its color at the queried index or
leaves that index unchanged. -/
theorem hextilePut_get_or (rectW : Nat) (cs : List Color) (px py : Nat) (c : Color)
    (i : Nat) :
    (hextilePut rectW cs px py c)[i]? = some c
    ∨ (hextilePut rectW cs px py c)[i]? = cs[i]? := by
  simp only [hextilePut]
  by_cases hlt : py * rectW + px < cs.length
  · rw [if_pos hlt]
    by_cases hi : py * rectW + px = i
    · subst hi
      exact Or.inl (List.getElem?_set_eq_of_lt _ hlt)
    · exact Or.inr (List.getElem?_set_ne hi)
  · rw [if_neg hlt]
    exact Or.inr rfl

/-- Helper: a guarded write at an in-bounds target stores its color there. -/
theorem hextilePut_get_self (rectW : Nat) (cs : List Color) (px py : Nat) (c : Color)
    (h : py * rectW + px < cs.length) :
    (hextilePut rectW cs px py c)[py * rectW + px]? = some c := by
  simp only [hextilePut, if_pos h]
  exact List.getElem?_set_eq_of_lt _ h

/-- Helper: a fold of steps that each either write `c` or leave an index
unchanged itself either writes `c` or leaves the index unchanged. -/
theorem foldl_put_get_or {α : Type} (c : Color) (f : List Color → α → List Color)
    (hf : ∀ (cs : List Color) (a : α) (i : Nat),
      (f cs a)[i]? = some c ∨ (f cs a)[i]? = cs[i]?) :
    ∀ (l : List α) (cs : List Color) (i : Nat),
      (l.foldl f cs)[i]? = some c ∨ (l.foldl f cs)[i]? = cs[i]? := by
  intro l
  induction l with
  | nil => intro cs i; exact Or.inr rfl
  | cons a t ih =>
    intro cs i
    rw [List.foldl_cons]
    rcases ih (f cs a) i with h | h
    · exact Or.inl h
    · rcases hf cs a i with h2 | h2
      · exact Or.inl (h.trans h2)
      · exact Or.inr (h.trans h2)

/-- Helper: such a fold preserves an index already holding `c`. -/
theorem foldl_put_preserve {α : Type} (c : Color) (f : List Color → α → List Color)
    (hf : ∀ (cs : List Color) (a : α) (i : Nat),
      (f cs a)[i]? = some c ∨ (f cs a)[i]? = cs[i]?)
    (l : List α) (cs : List Color) (i : Nat) (h : cs[i]? = some c) :
    (l.foldl f cs)[i]? = some c := by
  rcases foldl_put_get_or c f hf l cs i with h2 | h2
  · exact h2
  · exact h2.trans h

/-- Helper: painting one row of a tile stores the fill color at every pixel
of the row whose coordinates do not wrap and whose index is in bounds. -/
theorem hextileRowPaint_get (rectW relX : Nat) (c : Color) (py : Nat) :
    ∀ (tw : Nat) (cs : List Color) (tx : Nat), tx < tw → relX + tx < 65536 →
      py * rectW + (relX + tx) < cs.length →
      ((List.range tw).foldl
        (fun cs2 tx2 => hextilePut rectW cs2 ((relX + tx2) % 65536) py c) cs)[py * rectW + (relX + tx)]?
        = some c := by
  intro tw
  induction tw with
  | zero => intro cs tx hx; exact absurd hx (Nat.not_lt_zero _)
  | succ tw ih =>
    intro cs tx hx hmod hlen
    have hr : List.range (tw + 1) = List.range tw ++ [tw] := by
      simpa using List.range_succ (n := tw)
    rw [hr, List.foldl_append, List.foldl_cons, List.foldl_nil]
    set R := (List.range tw).foldl
      (fun cs2 tx2 => hextilePut rectW cs2 ((relX + tx2) % 65536) py c) cs with hR
    rcases Nat.lt_succ_iff_lt_or_eq.mp hx with hlt | heq
    · rcases hextilePut_get_or rectW R ((relX + tw) % 65536) py c (py * rectW + (relX + tx)) with h | h
      · exact h
      · rw [h]
        exact ih cs tx hlt hmod hlen
    · subst heq
      have hRlen : R.length = cs.length := by
        rw [hR]
        exact foldl_preserves_length _ (fun cs2 a => hextilePut_length _ _ _ _ _) _ _
      have hpx : (relX + tx) % 65536 = relX + tx := Nat.mod_eq_of_lt hmod
      rw [hpx]
      exact hextilePut_get_self rectW R (relX + tx) py c (by rw [hRlen]; exact hlen)

/-- Helper: the background fill stores the fill color at every pixel of the
tile whose coordinates do not wrap and whose index is in bounds. -/
theorem hextileFillTile_get (rectW relX relY : Nat) (c : Color) :
    ∀ (th tw : Nat) (cs : List Color) (tx ty : Nat), tx < tw → ty < th →
      relX + tx < 65536 → relY + ty < 65536 →
      (relY + ty) * rectW + (relX + tx) < cs.length →
      (hextileFillTile rectW relX relY tw th c cs)[(relY + ty) * rectW + (relX + tx)]?
        = some c := by
  intro th
  induction th with
  | zero => intro tw cs tx ty _ hy; exact absurd hy (Nat.not_lt_zero _)
  | succ th ih =>
    intro tw cs tx ty hx hy hmx hmy hlen
    unfold hextileFillTile
    have hr : List.range (th + 1) = List.range th ++ [th] := by
      simpa using List.range_succ (n := th)
    rw [hr, List.foldl_append, List.foldl_cons, List.foldl_nil]
    have hstep : ∀ (cs2 : List Color) (ty2 i : Nat),
        ((List.range tw).foldl
          (fun cs3 tx2 => hextilePut rectW cs3 ((relX + tx2) % 65536) ((relY + ty2) % 65536) c) cs2)[i]?
          = some c
        ∨ ((List.range tw).foldl
          (fun cs3 tx2 => hextilePut rectW cs3 ((relX + tx2) % 65536) ((relY + ty2) % 65536) c) cs2)[i]?
          = cs2[i]? :=
      fun cs2 ty2 i =>
        foldl_put_get_or c _ (fun cs3 a j => hextilePut_get_or rectW cs3 _ _ c j) _ cs2 i
    rcases Nat.lt_succ_iff_lt_or_eq.mp hy with hlt | heq
    · rcases hstep ((List.range th).foldl
        (fun cs4 ty2 => (List.range tw).foldl
          (fun cs3 tx2 => hextilePut rectW cs3 ((relX + tx2) % 65536) ((relY + ty2) % 65536) c) cs4) cs)
        th ((relY + ty) * rectW + (relX + tx)) with h | h
      · exact h
      · rw [h]
        have := ih tw cs tx ty hx hlt hmx hmy hlen
        unfold hextileFillTile at this
        exact this
    · subst heq
      set R := (List.range ty).foldl
        (fun cs4 ty2 => (List.range tw).foldl
          (fun cs3 tx2 => hextilePut rectW cs3 ((relX + tx2) % 65536) ((relY + ty2) % 65536) c) cs4) cs
        with hRdef
      have hRlen : R.length = cs.length := by
        rw [hRdef]
        refine foldl_preserves_length _ (fun cs4 a => ?_) _ _
        exact foldl_preserves_length _ (fun cs3 a2 => hextilePut_length _ _ _ _ _) _ _
      have hpy : (relY + ty) % 65536 = relY + ty := Nat.mod_eq_of_lt hmy
      rw [hpy]
      exact hextileRowPaint_get rectW relX c (relY + ty) tw R tx hx hmx
        (by rw [hRlen]; exact hlen)

/-- C2: for every Hextile tile whose mask has the Raw bit clear — (1) with
bit 1 (background) clear the tile keeps the background inherited from the
most recent tile that specified one (the persistent state), (2) with bit 1
set the background becomes the freshly read pixel, (3) with bit 2
(foreground) clear the foreground is inherited likewise, (4) a mask of 0x00
decodes to exactly the tile filled with the inherited background (no bytes
beyond the mask consumed), and (5) every non-wrapping, in-bounds pixel of
that filled tile holds the inherited background color. -/
theorem hextile_bg_fg_inherit (pf : PixelFormat) (cm : List Color) (rect : Rectangle)
    (x y : Nat) (s : HexState) (mask : Nat) (rest : List Nat)
    (hstream : s.stream = mask :: rest) (hraw : mask &&& 0x01 = 0) :
    ((mask &&& 0x02 = 0) → ∀ s', hextileTile pf cm rect x y s = .ok s' → s'.bg = s.bg)
    ∧ ((mask &&& 0x02 ≠ 0) → ∀ s', hextileTile pf cm rect x y s = .ok s' →
        s'.bg = colorUnmarshal pf cm (rest.take (pf.bpp / 8)))
    ∧ ((mask &&& 0x04 = 0) → ∀ s', hextileTile pf cm rect x y s = .ok s' → s'.fg = s.fg)
    ∧ (mask = 0 → hextileTile pf cm rect x y s
        = .ok ⟨hextileFillTile rect.width (x - rect.x) (y - rect.y)
                 (hexTileW rect x) (hexTileH rect y) s.bg s.colors,
               s.bg, s.fg, rest⟩)
    ∧ (mask = 0 → ∀ tx ty, tx < hexTileW rect x → ty < hexTileH rect y →
        (x - rect.x) + tx < 65536 → (y - rect.y) + ty < 65536 →
        ((y - rect.y) + ty) * rect.width + ((x - rect.x) + tx) < s.colors.length →
        (hextileFillTile rect.width (x - rect.x) (y - rect.y)
            (hexTileW rect x) (hexTileH rect y) s.bg
            s.colors)[((y - rect.y) + ty) * rect.width + ((x - rect.x) + tx)]?
          = some s.bg) := by
  refine ⟨?_, ?_, ?_, ?_, ?_⟩
  · intro h2 s' hok
    simp only [hextileTile, hstream] at hok
    rw [if_neg (by simp [hraw])] at hok
    split at hok
    · exact absurd hok (by simp)
    · next bgv s1 hbg =>
      have hbg' : bgv = s.bg := by
        rw [show (mask &&& 0x02 != 0) = false by simp [h2]] at hbg
        simp only [readColorIf, if_neg (by simp : ¬False)] at hbg
        cases hbg
        rfl
      split at hok
      · exact absurd hok (by simp)
      · next fgv s2 hfg =>
        split at hok
        · split at hok
          · exact absurd hok (by simp)
          · split at hok
            · exact absurd hok (by simp)
            · next colors2 s4 hsub =>
              cases hok
              simpa using hbg'
        · cases hok
          simpa using hbg'
  · intro h2 s' hok
    simp only [hextileTile, hstream] at hok
    rw [if_neg (by simp [hraw])] at hok
    split at hok
    · exact absurd hok (by simp)
    · next bgv s1 hbg =>
      have hbg' : bgv = colorUnmarshal pf cm (rest.take (pf.bpp / 8)) := by
        rw [show (mask &&& 0x02 != 0) = true by simp [bne_iff_ne, h2]] at hbg
        simp only [readColorIf, if_true] at hbg
        split at hbg
        · exact absurd hbg (by simp)
        · cases hbg
          rfl
      split at hok
      · exact absurd hok (by simp)
      · next fgv s2 hfg =>
        split at hok
        · split at hok
          · exact absurd hok (by simp)
          · split at hok
            · exact absurd hok (by simp)
            · next colors2 s4 hsub =>
              cases hok
              simpa using hbg'
        · cases hok
          simpa using hbg'
  · intro h4 s' hok
    simp only [hextileTile, hstream] at hok
    rw [if_neg (by simp [hraw])] at hok
    split at hok
    · exact absurd hok (by simp)
    · next bgv s1 hbg =>
      split at hok
      · exact absurd hok (by simp)
      · next fgv s2 hfg =>
        have hfg' : fgv = s.fg := by
          rw [show (mask &&& 0x04 != 0) = false by simp [h4]] at hfg
          simp only [readColorIf, if_neg (by simp : ¬False)] at hfg
          cases hfg
          rfl
        split at hok
        · split at hok
          · exact absurd hok (by simp)
          · split at hok
            · exact absurd hok (by simp)
            · next colors2 s4 hsub =>
              cases hok
              simpa using hfg'
        · cases hok
          simpa using hfg'
  · intro h0
    subst h0
    simp [hextileTile, hstream, readColorIf, hexTileW, hexTileH]
  · intro h0 tx ty htx hty hmx hmy hlen
    exact hextileFillTile_get rect.width (x - rect.x) (y - rect.y) s.bg
      (hexTileH rect y) (hexTileW rect x) s.colors tx ty htx hty hmx hmy hlen

/-- C2 (witness): a single 4×2 tile with mask 0x00 and inherited background
`⟨0,1,1⟩` / foreground `⟨0,2,2⟩` decodes to the tile filled with the
inherited background, and pixel (1,1) of the tile indeed holds it. -/
theorem hextile_bg_fg_inherit_witness :
    hextileTile pixelFormat8bit [] ⟨0, 0, 4, 2⟩ 0 0
        ⟨List.replicate 8 colorZero, ⟨0, 1, 1⟩, ⟨0, 2, 2⟩, [0]⟩
      = .ok ⟨hextileFillTile 4 0 0 4 2 ⟨0, 1, 1⟩ (List.replicate 8 colorZero),
             ⟨0, 1, 1⟩, ⟨0, 2, 2⟩, []⟩
    ∧ (hextileFillTile 4 0 0 4 2 ⟨0, 1, 1⟩ (List.replicate 8 colorZero))[5]?
      = some ⟨0, 1, 1⟩ := by
  have h := hextile_bg_fg_inherit pixelFormat8bit [] ⟨0, 0, 4, 2⟩ 0 0
    ⟨List.replicate 8 colorZero, ⟨0, 1, 1⟩, ⟨0, 2, 2⟩, [0]⟩ 0 [] rfl rfl
  exact ⟨h.2.2.2.1 rfl,
    h.2.2.2.2 rfl 1 1 (by decide) (by decide) (by decide) (by decide) (by decide)⟩

/-- Helper: a u16 below 65536 round-trips through its big-endian bytes. -/
theorem rd16_be16 (v : Nat) (rest : List Nat) (h : v < 65536) :
    rd16 (be16 v ++ rest) = .ok (v, rest) := by
  simp only [be16, List.cons_append, List.nil_append, rd16]
  have hv : v / 256 % 256 * 256 + v % 256 = v := by omega
  rw [hv]

/-- Helper: a u32 below 2^32 round-trips through its big-endian bytes. -/
theorem rd32_be32 (v : Nat) (rest : List Nat) (h : v < 4294967296) :
    rd32 (be32 v ++ rest) = .ok (v, rest) := by
  simp only [be32, List.cons_append, List.nil_append, rd32]
  have hv : ((v / 16777216 % 256 * 256 + v / 65536 % 256) * 256 + v / 256 % 256) * 256
      + v % 256 = v := by omega
  rw [hv]

/-- Helper: a value below 2^32 round-trips through its four big-endian
bytes. -/
theorem bytesToValueBE_beBytes4 (v : Nat) (h : v < 4294967296) :
    bytesToValueBE (beBytes 4 v) = v := by
  simp only [beBytes, bytesToValueBE, List.foldl_cons, List.foldl_nil]
  norm_num
  omega

/-- Helper: the marshalled form of a color in the canonical 32-bit
true-color format is four bytes. -/
theorem colorMarshal_pf32_length (c : Color) :
    (colorMarshal pixelFormat32bit c).length = 4 := rfl

/-- Helper: a color with 8-bit channels round-trips through the canonical
32-bit true-color format. -/
theorem color_roundtrip_pf32 (cm : List Color) (c : Color)
    (hR : c.R < 256) (hG : c.G < 256) (hB : c.B < 256) :
    colorUnmarshal pixelFormat32bit cm (colorMarshal pixelFormat32bit c) = c := by
  obtain ⟨R, G, B⟩ := c
  simp only at hR hG hB
  have hand : ∀ x : Nat, x &&& 255 = x % 256 := fun x => by
    have := Nat.and_pow_two_sub_one_eq_mod x 8
    simpa using this
  simp only [colorMarshal, colorUnmarshal, pixelFormat32bit, if_true]
  have hveq : R % 256 * 2 ^ 16 + G % 256 * 2 ^ 8 + B % 256 * 2 ^ 0
      = R * 65536 + G * 256 + B := by
    rw [Nat.mod_eq_of_lt hR, Nat.mod_eq_of_lt hG, Nat.mod_eq_of_lt hB]
    norm_num
  rw [hveq]
  rw [bytesToValueBE_beBytes4 _ (by omega)]
  rw [Nat.shiftRight_eq_div_pow, Nat.shiftRight_eq_div_pow, Nat.shiftRight_eq_div_pow]
  rw [hand, hand, hand]
  have e1 : (R * 65536 + G * 256 + B) / 2 ^ 16 % 256 = R := by omega
  have e2 : (R * 65536 + G * 256 + B) / 2 ^ 8 % 256 = G := by omega
  have e3 : (R * 65536 + G * 256 + B) / 2 ^ 0 % 256 = B := by omega
  rw [e1, e2, e3]

/-- Helper: taking the pixel-size prefix of a marshalled color recovers it. -/
theorem take4_colorMarshal (c : Color) (tail : List Nat) :
    (colorMarshal pixelFormat32bit c ++ tail).take 4 = colorMarshal pixelFormat32bit c := by
  rw [show (4 : Nat) = (colorMarshal pixelFormat32bit c).length from rfl]
  exact List.take_left _ _

/-- Helper: dropping the pixel-size prefix of a marshalled color leaves the
tail. -/
theorem drop4_colorMarshal (c : Color) (tail : List Nat) :
    (colorMarshal pixelFormat32bit c ++ tail).drop 4 = tail := by
  rw [show (4 : Nat) = (colorMarshal pixelFormat32bit c).length from rfl]
  exact List.drop_left _ _

/-- Helper: the RRE sub-rectangle list round-trips through marshalling in
the canonical 32-bit true-color format. -/
theorem rreReadSubs_roundtrip (cm : List Color) :
    ∀ (l : List RRESubRect) (rest : List Nat),
      (∀ sr ∈ l, sr.color.R < 256 ∧ sr.color.G < 256 ∧ sr.color.B < 256
        ∧ sr.rect.x < 65536 ∧ sr.rect.y < 65536
        ∧ sr.rect.width < 65536 ∧ sr.rect.height < 65536) →
      rreReadSubs pixelFormat32bit cm 4 l.length
          (rreMarshalSubs pixelFormat32bit l ++ rest)
        = .ok (l, rest) := by
  intro l
  induction l with
  | nil => intro rest _; rfl
  | cons sr t ih =>
    intro rest hall
    obtain ⟨hcR, hcG, hcB, hx, hy, hw, hh⟩ := hall sr (by simp)
    have hall2 : ∀ sr2 ∈ t, sr2.color.R < 256 ∧ sr2.color.G < 256 ∧ sr2.color.B < 256
        ∧ sr2.rect.x < 65536 ∧ sr2.rect.y < 65536
        ∧ sr2.rect.width < 65536 ∧ sr2.rect.height < 65536 :=
      fun sr2 hm => hall sr2 (by simp [hm])
    have r1 : ∀ tail : List Nat, rd16 (be16 sr.rect.x ++ tail) = .ok (sr.rect.x, tail) :=
      fun tail => rd16_be16 _ tail hx
    have r2 : ∀ tail : List Nat, rd16 (be16 sr.rect.y ++ tail) = .ok (sr.rect.y, tail) :=
      fun tail => rd16_be16 _ tail hy
    have r3 : ∀ tail : List Nat, rd16 (be16 sr.rect.width ++ tail) = .ok (sr.rect.width, tail) :=
      fun tail => rd16_be16 _ tail hw
    have r4 : ∀ tail : List Nat, rd16 (be16 sr.rect.height ++ tail) = .ok (sr.rect.height, tail) :=
      fun tail => rd16_be16 _ tail hh
    have rc : colorUnmarshal pixelFormat32bit cm (colorMarshal pixelFormat32bit sr.color)
        = sr.color := color_roundtrip_pf32 cm _ hcR hcG hcB
    have hnot : ¬ ((colorMarshal pixelFormat32bit sr.color
        ++ (be16 sr.rect.x ++ (be16 sr.rect.y ++ (be16 sr.rect.width
          ++ (be16 sr.rect.height ++ (rreMarshalSubs pixelFormat32bit t ++ rest)))))).length < 4) := by
      rw [List.length_append, colorMarshal_pf32_length]
      omega
    simp only [rreMarshalSubs, List.append_assoc, List.length_cons, rreReadSubs]
    rw [if_neg hnot]
    simp only [drop4_colorMarshal, take4_colorMarshal, r1, r2, r3, r4, rc,
      ih rest hall2]

/-- C9: Marshal → Read round-trips for the marshal-supporting decoders —
(1) CopyRect: any source point with u16 coordinates is reproduced exactly;
(2) RRE (canonical 32-bit true-color format, so the color-map is not
consulted): any background color and sub-rectangle list with 8-bit channels
and u16 geometry is reproduced exactly; (3) ZRLE: for any zlib
deflate/inflate pair that invert each other (with non-empty compressed
output below 2^32 bytes, as zlib guarantees), the decompressed data is
reproduced exactly.  Each Read also consumes exactly the marshalled bytes,
leaving `rest`. -/
theorem marshal_read_roundtrip :
    (∀ (e : CopyRectEncoding) (rest : List Nat), e.srcX < 65536 → e.srcY < 65536 →
      copyRectRead (copyRectMarshal e ++ rest) = .ok (e, rest))
    ∧ (∀ (cm : List Color) (e : RREEncoding) (rest : List Nat),
        e.subRects.length < 4294967296 →
        e.backgroundColor.R < 256 → e.backgroundColor.G < 256 → e.backgroundColor.B < 256 →
        (∀ sr ∈ e.subRects, sr.color.R < 256 ∧ sr.color.G < 256 ∧ sr.color.B < 256
          ∧ sr.rect.x < 65536 ∧ sr.rect.y < 65536
          ∧ sr.rect.width < 65536 ∧ sr.rect.height < 65536) →
        rreRead pixelFormat32bit cm (rreMarshal pixelFormat32bit e ++ rest) = .ok (e, rest))
    ∧ (∀ (deflate : List Nat → List Nat) (inflate : List Nat → Except String (List Nat))
        (e : ZRLEEncoding) (rest : List Nat),
        (∀ d, inflate (deflate d) = .ok d) →
        0 < (deflate e.data).length → (deflate e.data).length < 4294967296 →
        zrleRead inflate (zrleMarshal deflate e ++ rest) = .ok (e, rest)) := by
  refine ⟨?_, ?_, ?_⟩
  · intro e rest h1 h2
    have r1 : ∀ tail : List Nat, rd16 (be16 e.srcX ++ tail) = .ok (e.srcX, tail) :=
      fun tail => rd16_be16 _ tail h1
    have r2 : ∀ tail : List Nat, rd16 (be16 e.srcY ++ tail) = .ok (e.srcY, tail) :=
      fun tail => rd16_be16 _ tail h2
    simp only [copyRectMarshal, List.append_assoc, copyRectRead, r1, r2]
  · intro cm e rest hlen hbR hbG hbB hsubs
    have hmod : e.subRects.length % 4294967296 = e.subRects.length :=
      Nat.mod_eq_of_lt hlen
    have r32 : ∀ tail : List Nat,
        rd32 (be32 e.subRects.length ++ tail) = .ok (e.subRects.length, tail) :=
      fun tail => rd32_be32 _ tail hlen
    have rc : colorUnmarshal pixelFormat32bit cm
        (colorMarshal pixelFormat32bit e.backgroundColor) = e.backgroundColor :=
      color_roundtrip_pf32 cm _ hbR hbG hbB
    have hnot : ¬ ((colorMarshal pixelFormat32bit e.backgroundColor
        ++ (rreMarshalSubs pixelFormat32bit e.subRects ++ rest)).length
          < pixelFormat32bit.bpp / 8) := by
      rw [List.length_append, colorMarshal_pf32_length]
      norm_num [pixelFormat32bit]
    simp only [rreMarshal, List.append_assoc, hmod, rreRead, r32]
    rw [if_neg hnot]
    have hbpp : pixelFormat32bit.bpp / 8 = 4 := rfl
    rw [hbpp, drop4_colorMarshal, take4_colorMarshal,
      rreReadSubs_roundtrip cm e.subRects rest hsubs, rc]
  · intro deflate inflate e rest hinv hpos hlt
    have hmod : (deflate e.data).length % 4294967296 = (deflate e.data).length :=
      Nat.mod_eq_of_lt hlt
    have r32 : ∀ tail : List Nat,
        rd32 (be32 (deflate e.data).length ++ tail) = .ok ((deflate e.data).length, tail) :=
      fun tail => rd32_be32 _ tail hlt
    simp only [zrleMarshal, zrleRead, List.append_assoc, hmod, r32]
    rw [if_neg (by omega)]
    rw [if_neg (by rw [List.length_append]; omega)]
    rw [List.take_left, List.drop_left, hinv e.data]

/-- C9 (witness): concrete round-trips — CopyRect (258, 772); RRE with
background `⟨1,2,3⟩` and one sub-rectangle; ZRLE through an invertible
codec pair (prepend a header byte / strip it). -/
theorem marshal_read_roundtrip_witness :
    copyRectRead (copyRectMarshal ⟨258, 772⟩ ++ [9])
      = .ok (⟨258, 772⟩, [9])
    ∧ rreRead pixelFormat32bit []
        (rreMarshal pixelFormat32bit ⟨⟨1, 2, 3⟩, [⟨⟨4, 5, 6⟩, ⟨7, 8, 9, 10⟩⟩]⟩ ++ [9])
      = .ok (⟨⟨1, 2, 3⟩, [⟨⟨4, 5, 6⟩, ⟨7, 8, 9, 10⟩⟩]⟩, [9])
    ∧ zrleRead (fun l => match l with | 9 :: d => .ok d | _ => .error "bad")
        (zrleMarshal (fun d => 9 :: d) ⟨[1, 2, 3]⟩ ++ [9])
      = .ok (⟨[1, 2, 3]⟩, [9]) := by
  refine ⟨marshal_read_roundtrip.1 ⟨258, 772⟩ [9] (by decide) (by decide),
    marshal_read_roundtrip.2.1 [] _ [9] (by decide) (by decide) (by decide) (by decide)
      (by decide),
    marshal_read_roundtrip.2.2 (fun d => 9 :: d) _ ⟨[1, 2, 3]⟩ [9]
      (fun d => rfl) (by decide) (by decide)⟩
